import Mathlib

/-!
# Verification of the Pydoku Sudoku engine (`pydoku.py`)

Shallow embedding of the engine core of `pydoku.py`: the `Cell` class, the
board constructors (`emptyBoard`, `__create_from_file`), the validator
(`checkWin` and its private helpers), the hole-carving pass (`makeHoles`),
and the generation/validation retry loop of `SudokuBoard.__init__`.

Python lists become Lean `List`s, 9x9 numpy arrays become functions
`Fin 9 → Fin 9 → _`, Python `float` randomness is modelled by ℚ draws in
[0,1), and code that can raise becomes `Except String _`.
-/

namespace Pydoku

/-- Embeds the `Cell` class: `self.row`, `self.col`, `self.box`,
`self.solved`, `self.possibleAnswers`, `self.answer`. -/
structure Cell where
  row : ℕ
  col : ℕ
  box : ℕ
  solved : Bool
  possibleAnswers : List ℕ
  answer : ℕ
deriving DecidableEq, Repr

/-- `Cell.__init__(self, x, y, z)`: unsolved, full domain
`[i for i in range(1, 10)]`, answer `0`. -/
def Cell.new (x y z : ℕ) : Cell :=
  { row := x, col := y, box := z, solved := false
    possibleAnswers := List.range' 1 9, answer := 0 }

/-- The first `if` statement of `Cell.remove(self, num)`: it removes
`num` from the domain of an unsolved cell (Python `list.remove` deletes
the first occurrence, as does `List.erase`) and promotes a naked single
(`len == 1`) to solved. -/
def Cell.removeFirst (c : Cell) (num : ℕ) : Cell :=
  if num ∈ c.possibleAnswers ∧ c.solved = false then
    let pa := c.possibleAnswers.erase num
    if pa.length = 1 then
      { c with possibleAnswers := pa, answer := pa.headD 0, solved := true }
    else
      { c with possibleAnswers := pa }
  else c

/-- The second `if` statement of `Cell.remove(self, num)`, evaluated on
the state left by the first: it clears `answer` to `0` when the cell is
solved and `num` is still in `possibleAnswers`. -/
def Cell.removeSecond (c : Cell) (num : ℕ) : Cell :=
  if num ∈ c.possibleAnswers ∧ c.solved = true then
    { c with answer := 0 }
  else c

/-- `Cell.remove(self, num)`: the two sequential `if` statements run in
order on the mutated state. -/
def Cell.remove (c : Cell) (num : ℕ) : Cell :=
  (c.removeFirst num).removeSecond num

/-- `Cell.setAnswer(self, num)`: `solved = True`, `answer = num`,
`possibleAnswers = [num]`. -/
def Cell.setAnswer (c : Cell) (num : ℕ) : Cell :=
  { c with solved := true, answer := num, possibleAnswers := [num] }

/-- `Cell.lenOfPossible(self)`: `len(self.possibleAnswers)`. -/
def Cell.lenOfPossible (c : Cell) : ℕ :=
  c.possibleAnswers.length

/-- `Cell.hole(self)`: reset to the original conditions. -/
def Cell.hole (c : Cell) : Cell :=
  { c with possibleAnswers := [1, 2, 3, 4, 5, 6, 7, 8, 9], answer := 0,
           solved := false }

/-- The box computation shared by `SudokuBoard.emptyBoard` and
`SudokuBoard.__create_from_file`: starting from `box = 0`, each row band
adds 1 / 4 / 7 and each column band adds 0 / 1 / 2. -/
def boxOf (row col : ℕ) : ℕ :=
  (if row = 0 ∨ row = 1 ∨ row = 2 then 1 else 0) +
  (if row = 3 ∨ row = 4 ∨ row = 5 then 4 else 0) +
  (if row = 6 ∨ row = 7 ∨ row = 8 then 7 else 0) +
  (if col = 0 ∨ col = 1 ∨ col = 2 then 0 else 0) +
  (if col = 3 ∨ col = 4 ∨ col = 5 then 1 else 0) +
  (if col = 6 ∨ col = 7 ∨ col = 8 then 2 else 0)

/-- A 9x9 board of cells (`self.board`). -/
def Grid : Type := Fin 9 → Fin 9 → Cell

instance : DecidableEq Grid := by
  unfold Grid
  infer_instance

/-- `SudokuBoard.emptyBoard`: `board[row][col] = Cell(row, col, box)`. -/
def emptyBoard : Grid :=
  fun r c => Cell.new r.val c.val (boxOf r.val c.val)

/-- Index of the `d`-th row/column inside the 3x3 band `R`
(Python `range(row * 3, (row + 1) * 3)`). -/
def boxIdx (R d : Fin 3) : Fin 9 :=
  ⟨3 * R.val + d.val, by omega⟩

/-- The answers of row `r`: `[i.answer for i in self.board[row]]`. -/
def rowList (g : Grid) (r : Fin 9) : List ℕ :=
  (List.finRange 9).map fun c => (g r c).answer

/-- The answers of column `c`:
`[self.board[row][column].answer for row in range(9)]`. -/
def colList (g : Grid) (c : Fin 9) : List ℕ :=
  (List.finRange 9).map fun r => (g r c).answer

/-- The answers of the 3x3 square at band `(R, C)`, row-major, as in
`SudokuBoard.__check_square`. -/
def boxList (g : Grid) (R C : Fin 3) : List ℕ :=
  (List.finRange 3).flatMap fun dr =>
    (List.finRange 3).map fun dc => (g (boxIdx R dr) (boxIdx C dc)).answer

/-- `SudokuBoard.__check_block(self, block)`:
`set(block) == set(range(1, 10))`. -/
def checkBlock (block : List ℕ) : Bool :=
  decide (block.toFinset = (List.range' 1 9).toFinset)

/-- `SudokuBoard.__check_row`. -/
def checkRow (g : Grid) (r : Fin 9) : Bool :=
  checkBlock (rowList g r)

/-- `SudokuBoard.__check_column`. -/
def checkColumn (g : Grid) (c : Fin 9) : Bool :=
  checkBlock (colList g c)

/-- `SudokuBoard.__check_square`. -/
def checkSquare (g : Grid) (R C : Fin 3) : Bool :=
  checkBlock (boxList g R C)

/-- The boolean value returned by `SudokuBoard.checkWin`: all 9 rows, all
9 columns, and all 9 squares pass `__check_block` (the Python early
returns short-circuit exactly like `&&`). -/
def checkWin (g : Grid) : Bool :=
  ((List.finRange 9).all fun row => checkRow g row) &&
  ((List.finRange 9).all fun column => checkColumn g column) &&
  ((List.finRange 3).all fun row =>
    (List.finRange 3).all fun column => checkSquare g row column)

/-- The board plus the `game_over` session flag living on the same object. -/
structure BoardState where
  board : Grid
  game_over : Bool

/-- The full `SudokuBoard.checkWin` method, state included: every early
`return False` leaves the state untouched, while the final `return True`
is preceded by `self.game_over = True`. -/
def checkWinRun (st : BoardState) : Bool × BoardState :=
  if checkWin st.board then (true, { st with game_over := true })
  else (false, st)

/-- The generation retry loop of `SudokuBoard.__init__` (no-file case):
`self.board = self.generateBoard()` followed by
`while not self.checkWin(): self.board = self.generateBoard()`, after
which `self.solved_board = deepcopy(self.board)`.  The successive outputs
of `generateBoard` (which consumes the global random stream) are
abstracted as a stream `gen : ℕ → Grid`; the unbounded `while` is given
`fuel` attempts and returns `none` when none of them passes `checkWin`.
The value returned is the retained solution grid. -/
def initSolvedBoard (gen : ℕ → Grid) (fuel : ℕ) : Option Grid :=
  ((List.range fuel).map gen).find? checkWin

/-- The classic shifted-rows solved grid, used as a concrete test board. -/
def solvedAnswer (r c : ℕ) : ℕ :=
  (3 * r + r / 3 + c) % 9 + 1

/-- A concrete fully solved board: each cell is built as the program does,
`Cell(row, col, box)` then `setAnswer`. -/
def solvedGrid : Grid :=
  fun r c => (Cell.new r.val c.val (boxOf r.val c.val)).setAnswer
    (solvedAnswer r.val c.val)

/-- A concrete board with a duplicated digit: cell (0,1) repeats the
answer of cell (0,0). -/
def dupGrid : Grid :=
  fun r c => if r = 0 ∧ c = 1 then solvedGrid r 0 else solvedGrid r c

/-- The target hole count of `SudokuBoard.makeHoles`:
`49 / 54 / 60` selected by chained conditionals on the difficulty name. -/
def toMakeOf (difficulty : String) : ℕ :=
  if difficulty = "easy" then 49 else if difficulty = "medium" then 54 else 60

/-- The body of the double loop of `SudokuBoard.makeHoles`, one cell per
step, paired with the `random.random()` draw consumed at that cell:
`chance = holesLeft / squaresLeft`; on `draw <= chance` the cell is reset
with `Cell.hole` and `holesLeft` is decremented; `squaresLeft` is
decremented every step.  The Python `float` arithmetic on these small
integer-valued quantities is modelled exactly by ℚ. -/
def makeHolesAux (holesLeft : ℚ) (squaresLeft : ℕ) :
    List (Cell × ℚ) → List Cell
  | [] => []
  | (c, q) :: rest =>
    let chance := holesLeft / (squaresLeft : ℚ)
    if q ≤ chance then
      c.hole :: makeHolesAux (holesLeft - 1) (squaresLeft - 1) rest
    else
      c :: makeHolesAux holesLeft (squaresLeft - 1) rest

/-- `SudokuBoard.makeHoles(self, difficulty)` on the row-major list of the
81 board cells, with the 81 random draws made explicit:
`squaresLeft = 81`, `holesLeft = float(toMake)`. -/
def makeHoles (difficulty : String) (cells : List Cell) (draws : List ℚ) :
    List Cell :=
  makeHolesAux ((toMakeOf difficulty : ℕ) : ℚ) 81 (cells.zip draws)

/-- The number of blank cells (answer `0`) of a board given as a list. -/
def blanks (cells : List Cell) : ℕ :=
  cells.countP fun c => c.answer == 0

/-- The row-major list of the 81 cells of a grid (numpy `flatten`). -/
def gridCells (g : Grid) : List Cell :=
  (List.finRange 9).flatMap fun r => (List.finRange 9).map fun c => g r c

/-- The concrete solved board as a cell list. -/
def solvedCells : List Cell :=
  gridCells solvedGrid

/-- One character of a board line, as processed inside the inner loop of
`SudokuBoard.__create_from_file`: non-digits raise, and every digit —
the zero digit included — is installed with `setAnswer(int(c))`. -/
def parseCell (row col : ℕ) (ch : Char) : Except String Cell :=
  if ch.isDigit then
    Except.ok ((Cell.new row col (boxOf row col)).setAnswer
      (ch.toNat - Char.toNat ZeroChar))
  else
    Except.error "Valid characters for a sudoku puzzle must be in 0-9"
where
  /-- The zero digit character, whose code `int(c)` subtracts. -/
  ZeroChar : Char := Char.ofNat 48

/-- The inner `for c in line` loop: each character becomes a cell at
`(row, col)` with `col` running from 0. -/
def parseChars (row col : ℕ) : List Char → Except String (List Cell)
  | [] => Except.ok []
  | ch :: rest => do
    let c ← parseCell row col ch
    let cs ← parseChars row (col + 1) rest
    Except.ok (c :: cs)

/-- The Python `str.strip()`: drop whitespace from both ends. -/
def strip (cs : List Char) : List Char :=
  ((cs.dropWhile Char.isWhitespace).reverse.dropWhile Char.isWhitespace).reverse

/-- One line of the outer `for line in board_file` loop: `line.strip()`
then the 9-character length check, then the character loop. -/
def parseRow (row : ℕ) (line : String) : Except String (List Cell) :=
  let t := strip line.data
  if t.length = 9 then parseChars row 0 t
  else Except.error "Each line in the sudoku puzzle must be 9 chars long."

/-- The board being filled by `__create_from_file`: `np.zeros((9, 9),
dtype=Cell)` is an object array whose entries start as the integer `0`
(modelled `none`) and are overwritten with `Cell` objects (`some _`). -/
def FileBoard : Type := Fin 9 → Fin 9 → Option Cell

/-- Overwrite row `row` of the board with the given cells. -/
def setRow (b : FileBoard) (row : ℕ) (cells : List Cell) : FileBoard :=
  fun i j => if i.val = row then cells[j.val]? else b i j

/-- The outer loop of `__create_from_file`: rows are filled in order; an
assignment `board[row][col]` with `row ≥ 9` raises the numpy `IndexError`. -/
def fillRows (b : FileBoard) (row : ℕ) :
    List String → Except String FileBoard
  | [] => Except.ok b
  | line :: rest =>
    if row < 9 then do
      let cells ← parseRow row line
      fillRows (setRow b row cells) (row + 1) rest
    else Except.error "IndexError"

/-- `SudokuBoard.__create_from_file(self, board_file)` — the `load`
operation.  The final `if len(board) != 9` of the source compares the
first dimension of the numpy array, which is 9 by construction whatever
the number of input lines, so it is the comparison `9 ≠ 9` here. -/
def createFromFile (lines : List String) : Except String FileBoard := do
  let b ← fillRows (fun _ _ => none) 0 lines
  if (9 : ℕ) ≠ 9 then
    Except.error "Each sudoku puzzle must be 9 lines long"
  else
    Except.ok b

/-- A well-formed 9-line input whose first character is the zero digit. -/
def c4Lines : List String :=
  "012345678" :: List.replicate 8 "111111111"

/-- An 8-line input whose lines are each 9 digit characters. -/
def c5Lines : List String :=
  List.replicate 8 "123456789"

/-!
## Helper lemmas
-/

example : checkWin solvedGrid = true := by decide

example : checkWin dupGrid = false := by decide

example : checkWin emptyBoard = false := by decide

lemma range'_toFinset : (List.range' 1 9).toFinset = Finset.Icc 1 9 := by decide

lemma checkWin_iff_units (g : Grid) :
    checkWin g = true ↔
      (∀ r, (rowList g r).toFinset = Finset.Icc 1 9) ∧
      (∀ c, (colList g c).toFinset = Finset.Icc 1 9) ∧
      (∀ R C, (boxList g R C).toFinset = Finset.Icc 1 9) := by
  simp [checkWin, checkRow, checkColumn, checkSquare, checkBlock,
    List.all_eq_true, List.mem_finRange, range'_toFinset, Bool.and_eq_true,
    decide_eq_true_iff]
  exact and_assoc

lemma rowList_length (g : Grid) (r : Fin 9) : (rowList g r).length = 9 := by
  simp [rowList]

lemma colList_length (g : Grid) (c : Fin 9) : (colList g c).length = 9 := by
  simp [colList]

lemma finRange_three : List.finRange 3 = [0, 1, 2] := by decide

lemma boxList_length (g : Grid) (R C : Fin 3) : (boxList g R C).length = 9 := by
  rw [boxList, finRange_three]
  rfl

/-- A 9-element unit whose digit set is `{1,...,9}` contains each digit
of `1..9` exactly once. -/
lemma unit_count (l : List ℕ) (hl : l.length = 9)
    (hf : l.toFinset = Finset.Icc 1 9) {d : ℕ} (h1 : 1 ≤ d) (h9 : d ≤ 9) :
    l.count d = 1 := by
  have hnd : (List.range' 1 9).Nodup := by decide
  have hsub : (List.range' 1 9) ⊆ l := by
    intro x hx
    rw [← List.mem_toFinset, hf, Finset.mem_Icc]
    have := List.mem_range'_1.mp hx
    omega
  have hperm := (hnd.subperm hsub).perm_of_length_le (by rw [hl]; simp)
  rw [← hperm.count_eq d]
  interval_cases d <;> decide

/-- A 9-element list with a repetition cannot have digit set `{1,...,9}`. -/
lemma toFinset_ne_of_not_nodup (l : List ℕ) (hl : l.length = 9)
    (h : ¬ l.Nodup) : l.toFinset ≠ Finset.Icc 1 9 := by
  intro hf
  apply h
  have hcard := congrArg Finset.card hf
  rw [List.card_toFinset] at hcard
  have h9 : l.dedup.length = 9 := by simpa [Nat.card_Icc] using hcard
  have heq : l.dedup = l := (List.dedup_sublist l).eq_of_length (by rw [h9, hl])
  rw [← heq]
  exact List.nodup_dedup l

lemma boxList_eq_map (g : Grid) (R C : Fin 3) :
    boxList g R C =
      (List.finRange 3 ×ˢ List.finRange 3).map
        (fun p => (g (boxIdx R p.1) (boxIdx C p.2)).answer) := by
  rw [boxList, finRange_three]
  rfl

lemma checkWin_false_of_row_dup (g : Grid) (r c₁ c₂ : Fin 9) (hne : c₁ ≠ c₂)
    (heq : (g r c₁).answer = (g r c₂).answer) : checkWin g = false := by
  cases hw : checkWin g with
  | false => rfl
  | true =>
    obtain ⟨hr, -, -⟩ := (checkWin_iff_units g).mp hw
    refine absurd (hr r) (toFinset_ne_of_not_nodup _ (rowList_length g r) ?_)
    intro hnd
    exact hne (List.inj_on_of_nodup_map (by simpa [rowList] using hnd)
      (List.mem_finRange c₁) (List.mem_finRange c₂) heq)

lemma checkWin_false_of_col_dup (g : Grid) (c r₁ r₂ : Fin 9) (hne : r₁ ≠ r₂)
    (heq : (g r₁ c).answer = (g r₂ c).answer) : checkWin g = false := by
  cases hw : checkWin g with
  | false => rfl
  | true =>
    obtain ⟨-, hc, -⟩ := (checkWin_iff_units g).mp hw
    refine absurd (hc c) (toFinset_ne_of_not_nodup _ (colList_length g c) ?_)
    intro hnd
    exact hne (List.inj_on_of_nodup_map (by simpa [colList] using hnd)
      (List.mem_finRange r₁) (List.mem_finRange r₂) heq)

lemma checkWin_false_of_box_dup (g : Grid) (R C : Fin 3) (p₁ p₂ : Fin 3 × Fin 3)
    (hne : p₁ ≠ p₂)
    (heq : (g (boxIdx R p₁.1) (boxIdx C p₁.2)).answer =
           (g (boxIdx R p₂.1) (boxIdx C p₂.2)).answer) : checkWin g = false := by
  cases hw : checkWin g with
  | false => rfl
  | true =>
    obtain ⟨-, -, hb⟩ := (checkWin_iff_units g).mp hw
    refine absurd (hb R C) (toFinset_ne_of_not_nodup _ (boxList_length g R C) ?_)
    intro hnd
    rw [boxList_eq_map] at hnd
    obtain ⟨a₁, b₁⟩ := p₁
    obtain ⟨a₂, b₂⟩ := p₂
    exact hne (List.inj_on_of_nodup_map hnd
      (List.mem_product.mpr ⟨List.mem_finRange a₁, List.mem_finRange b₁⟩)
      (List.mem_product.mpr ⟨List.mem_finRange a₂, List.mem_finRange b₂⟩) heq)

lemma blanks_cons (c : Cell) (l : List Cell) :
    blanks (c :: l) = blanks l + if c.answer = 0 then 1 else 0 := by
  simp [blanks, List.countP_cons]

lemma blanks_le_cons (c : Cell) (l : List Cell) :
    blanks l ≤ blanks (c :: l) := by
  rw [blanks_cons]
  omega

lemma blanks_hole_cons (c : Cell) (l : List Cell) :
    blanks (c.hole :: l) = blanks l + 1 := by
  simp [blanks, List.countP_cons, Cell.hole]

lemma blanks_keep_cons (c : Cell) (l : List Cell) (hc : c.answer ≠ 0) :
    blanks (c :: l) = blanks l := by
  simp [blanks, List.countP_cons, hc]

/-- With a negative `holesLeft` and nonnegative draws no further hole is
carved: every remaining cell is passed through unchanged. -/
lemma makeHolesAux_neg (pairs : List (Cell × ℚ)) :
    ∀ h : ℚ, h < 0 → (∀ p ∈ pairs, 0 ≤ p.2) →
      makeHolesAux h pairs.length pairs = pairs.map Prod.fst := by
  induction pairs with
  | nil => intro h _ _; rfl
  | cons p rest ih =>
    intro h hneg hq
    obtain ⟨c, q⟩ := p
    have hs : (0 : ℚ) < ((rest.length + 1 : ℕ) : ℚ) := by positivity
    have hchance : h / ((rest.length + 1 : ℕ) : ℚ) < 0 :=
      div_neg_of_neg_of_pos hneg hs
    have hq0 : 0 ≤ q := hq (c, q) (by simp)
    simp only [List.length_cons, makeHolesAux,
      if_neg (not_le.mpr (lt_of_lt_of_le hchance hq0)), List.map_cons,
      Nat.add_sub_cancel]
    rw [ih h hneg fun p hp => hq p (List.mem_cons_of_mem _ hp)]

/-- With all-zero draws every visit with `holesLeft ≥ 0` carves, so the
pass carves `min (holesLeft + 1) squaresLeft` holes in total. -/
lemma makeHolesAux_zero_draws (pairs : List (Cell × ℚ)) :
    ∀ h : ℕ, (∀ p ∈ pairs, p.2 = 0) → (∀ p ∈ pairs, p.1.answer ≠ 0) →
      blanks (makeHolesAux (h : ℚ) pairs.length pairs) =
        min (h + 1) pairs.length := by
  induction pairs with
  | nil => intro h _ _; simp [makeHolesAux, blanks]
  | cons p rest ih =>
    intro h hq hc
    obtain ⟨c, q⟩ := p
    have hq0 : q = 0 := hq (c, q) (by simp)
    have hchance : (0 : ℚ) ≤ (h : ℚ) / ((rest.length + 1 : ℕ) : ℚ) :=
      div_nonneg (Nat.cast_nonneg h) (Nat.cast_nonneg _)
    have hq' : ∀ p ∈ rest, p.2 = 0 := fun p hp => hq p (List.mem_cons_of_mem _ hp)
    have hc' : ∀ p ∈ rest, p.1.answer ≠ 0 :=
      fun p hp => hc p (List.mem_cons_of_mem _ hp)
    simp only [List.length_cons, makeHolesAux, hq0, if_pos hchance,
      Nat.add_sub_cancel]
    rw [blanks_hole_cons]
    cases h with
    | zero =>
      have hneg : ((0 : ℕ) : ℚ) - 1 < 0 := by norm_num
      rw [makeHolesAux_neg rest _ hneg fun p hp => le_of_eq (hq' p hp).symm]
      have hzero : blanks (rest.map Prod.fst) = 0 := by
        refine List.countP_eq_zero.mpr ?_
        intro a ha
        obtain ⟨p, hp, hpa⟩ := List.mem_map.mp ha
        simpa [hpa.symm] using hc' p hp
      rw [hzero]
      omega
    | succ k =>
      have hcast : ((k + 1 : ℕ) : ℚ) - 1 = (k : ℚ) := by push_cast; ring
      rw [hcast, ih k hq' hc']
      omega

/-- For any draws below 1, at least `holesLeft` holes are carved: when
`holesLeft = squaresLeft` the probability is 1 and the carve is forced. -/
lemma makeHolesAux_ge (pairs : List (Cell × ℚ)) :
    ∀ h : ℤ, h ≤ (pairs.length : ℤ) → (∀ p ∈ pairs, p.2 < 1) →
      h ≤ (blanks (makeHolesAux (h : ℚ) pairs.length pairs) : ℤ) := by
  induction pairs with
  | nil =>
    intro h hle _
    simpa [makeHolesAux, blanks] using hle
  | cons p rest ih =>
    intro h hle hq
    obtain ⟨c, q⟩ := p
    have hq1 : q < 1 := hq (c, q) (by simp)
    have hq' : ∀ p ∈ rest, p.2 < 1 := fun p hp => hq p (List.mem_cons_of_mem _ hp)
    simp only [List.length_cons] at hle ⊢
    by_cases hcq : q ≤ (h : ℚ) / ((rest.length + 1 : ℕ) : ℚ)
    · simp only [makeHolesAux, if_pos hcq, Nat.add_sub_cancel]
      rw [show ((h : ℚ) - 1) = ((h - 1 : ℤ) : ℚ) by push_cast; ring]
      rw [blanks_hole_cons]
      have ih' := ih (h - 1) (by omega) hq'
      omega
    · have hne : h ≠ (rest.length : ℤ) + 1 := by
        intro hcontr
        apply hcq
        rw [hcontr]
        have hs : ((rest.length + 1 : ℕ) : ℚ) ≠ 0 := by positivity
        rw [show (((rest.length : ℤ) + 1 : ℤ) : ℚ) = ((rest.length + 1 : ℕ) : ℚ)
          by push_cast; ring]
        rw [div_self hs]
        exact le_of_lt hq1
      simp only [makeHolesAux, if_neg hcq, Nat.add_sub_cancel]
      have ih' := ih h (by omega) hq'
      have hmono := blanks_le_cons c (makeHolesAux (h : ℚ) rest.length rest)
      omega

/-- For strictly positive draws below 1 the pass carves exactly
`holesLeft` holes: probability 0 never fires and probability 1 always
fires. -/
lemma makeHolesAux_eq (pairs : List (Cell × ℚ)) :
    ∀ h : ℕ, h ≤ pairs.length → (∀ p ∈ pairs, 0 < p.2 ∧ p.2 < 1) →
      (∀ p ∈ pairs, p.1.answer ≠ 0) →
      blanks (makeHolesAux (h : ℚ) pairs.length pairs) = h := by
  induction pairs with
  | nil =>
    intro h hle _ _
    have h0 : h = 0 := Nat.le_zero.mp hle
    subst h0
    rfl
  | cons p rest ih =>
    intro h hle hq hc
    obtain ⟨c, q⟩ := p
    obtain ⟨hq0, hq1⟩ := hq (c, q) (by simp)
    have hq' : ∀ p ∈ rest, 0 < p.2 ∧ p.2 < 1 :=
      fun p hp => hq p (List.mem_cons_of_mem _ hp)
    have hc' : ∀ p ∈ rest, p.1.answer ≠ 0 :=
      fun p hp => hc p (List.mem_cons_of_mem _ hp)
    simp only [List.length_cons] at hle ⊢
    by_cases hcq : q ≤ (h : ℚ) / ((rest.length + 1 : ℕ) : ℚ)
    · cases h with
      | zero =>
        rw [show ((0 : ℕ) : ℚ) / ((rest.length + 1 : ℕ) : ℚ) = 0 by
          simp] at hcq
        exact absurd (lt_of_lt_of_le hq0 hcq) (lt_irrefl 0)
      | succ k =>
        simp only [makeHolesAux, if_pos hcq, Nat.add_sub_cancel]
        rw [blanks_hole_cons]
        rw [show (((k + 1 : ℕ)) : ℚ) - 1 = (k : ℚ) by push_cast; ring]
        rw [ih k (by omega) hq' hc']
    · have hne : h ≠ rest.length + 1 := by
        intro hcontr
        apply hcq
        subst hcontr
        have hs : ((rest.length + 1 : ℕ) : ℚ) ≠ 0 := by positivity
        rw [div_self hs]
        exact le_of_lt hq1
      simp only [makeHolesAux, if_neg hcq, Nat.add_sub_cancel]
      rw [blanks_keep_cons _ _ (hc (c, q) (by simp))]
      rw [ih h (by omega) hq' hc']

lemma makeHolesAux_ge_nat (pairs : List (Cell × ℚ)) (h : ℕ)
    (hle : h ≤ pairs.length) (hq : ∀ p ∈ pairs, p.2 < 1) :
    h ≤ blanks (makeHolesAux (h : ℚ) pairs.length pairs) := by
  have hz := makeHolesAux_ge pairs (h : ℤ) (by exact_mod_cast hle) hq
  rw [Int.cast_natCast] at hz
  exact_mod_cast hz

/-!
## Claim theorems
-/

/-- C1: whenever the generation retry loop of the no-file
`SudokuBoard.__init__` returns, the retained solution grid passes
`checkWin`, and every row, column, and 3x3 box of it contains each digit
1 through 9 exactly once. -/
theorem init_solution_valid (gen : ℕ → Grid) (fuel : ℕ) (g : Grid)
    (h : initSolvedBoard gen fuel = some g) :
    checkWin g = true ∧
    (∀ r : Fin 9, ∀ d : ℕ, 1 ≤ d → d ≤ 9 → (rowList g r).count d = 1) ∧
    (∀ c : Fin 9, ∀ d : ℕ, 1 ≤ d → d ≤ 9 → (colList g c).count d = 1) ∧
    (∀ R C : Fin 3, ∀ d : ℕ, 1 ≤ d → d ≤ 9 → (boxList g R C).count d = 1) := by
  have hw : checkWin g = true := List.find?_some h
  obtain ⟨hr, hc, hb⟩ := (checkWin_iff_units g).mp hw
  exact ⟨hw,
    fun r d h1 h9 => unit_count _ (rowList_length g r) (hr r) h1 h9,
    fun c d h1 h9 => unit_count _ (colList_length g c) (hc c) h1 h9,
    fun R C d h1 h9 => unit_count _ (boxList_length g R C) (hb R C) h1 h9⟩

/-- Witness for C1 at a concrete generator stream and fuel. -/
theorem init_solution_valid_witness :
    initSolvedBoard (fun _ => solvedGrid) 1 = some solvedGrid ∧
    checkWin solvedGrid = true ∧
    (rowList solvedGrid 0).count 5 = 1 := by
  have hfind : initSolvedBoard (fun _ => solvedGrid) 1 = some solvedGrid := by rfl
  exact ⟨hfind, (init_solution_valid _ 1 _ hfind).1,
    (init_solution_valid _ 1 _ hfind).2.1 0 5 (by decide) (by decide)⟩

/-- C2: `checkWin` returns `true` iff every row, column, and 3x3 box has
digit set exactly `{1,...,9}`; in particular a repeated digit in any row,
column, or box forces `false`. -/
theorem checkWin_spec (g : Grid) :
    (checkWin g = true ↔
      (∀ r, (rowList g r).toFinset = Finset.Icc 1 9) ∧
      (∀ c, (colList g c).toFinset = Finset.Icc 1 9) ∧
      (∀ R C, (boxList g R C).toFinset = Finset.Icc 1 9)) ∧
    (∀ r c₁ c₂ : Fin 9, c₁ ≠ c₂ → (g r c₁).answer = (g r c₂).answer →
      checkWin g = false) ∧
    (∀ c r₁ r₂ : Fin 9, r₁ ≠ r₂ → (g r₁ c).answer = (g r₂ c).answer →
      checkWin g = false) ∧
    (∀ R C : Fin 3, ∀ p₁ p₂ : Fin 3 × Fin 3, p₁ ≠ p₂ →
      (g (boxIdx R p₁.1) (boxIdx C p₁.2)).answer =
        (g (boxIdx R p₂.1) (boxIdx C p₂.2)).answer →
      checkWin g = false) :=
  ⟨checkWin_iff_units g,
    fun r c₁ c₂ hne heq => checkWin_false_of_row_dup g r c₁ c₂ hne heq,
    fun c r₁ r₂ hne heq => checkWin_false_of_col_dup g c r₁ r₂ hne heq,
    fun R C p₁ p₂ hne heq => checkWin_false_of_box_dup g R C p₁ p₂ hne heq⟩

/-- Witness for C2: a concrete valid grid passes and a concrete grid with
a duplicated digit in row 0 fails. -/
theorem checkWin_spec_witness :
    checkWin solvedGrid = true ∧ checkWin dupGrid = false :=
  ⟨(checkWin_spec solvedGrid).1.mpr (by decide),
    (checkWin_spec dupGrid).2.1 0 0 1 (by decide) (by decide)⟩

/-- C3 (amended): for draw sequences from (0,1) — every draw strictly
positive — `makeHoles` blanks exactly 49 / 54 / 60 cells for easy /
medium / hard; a draw equal to 0 can carve one extra hole (see the
counterexample). -/
theorem makeHoles_exact_target (cells : List Cell) (draws : List ℚ)
    (hc : cells.length = 81) (hd : draws.length = 81)
    (hcells : ∀ c ∈ cells, c.answer ≠ 0)
    (hdraws : ∀ q ∈ draws, 0 < q ∧ q < 1) :
    blanks (makeHoles "easy" cells draws) = 49 ∧
    blanks (makeHoles "medium" cells draws) = 54 ∧
    blanks (makeHoles "hard" cells draws) = 60 := by
  have hlen : (cells.zip draws).length = 81 := by
    rw [List.length_zip, hc, hd]
    norm_num
  have hq : ∀ p ∈ cells.zip draws, 0 < p.2 ∧ p.2 < 1 := by
    rintro ⟨a, b⟩ hp
    exact hdraws b (List.of_mem_zip hp).2
  have hcl : ∀ p ∈ cells.zip draws, p.1.answer ≠ 0 := by
    rintro ⟨a, b⟩ hp
    exact hcells a (List.of_mem_zip hp).1
  refine ⟨?_, ?_, ?_⟩
  · have heq := makeHolesAux_eq (cells.zip draws) 49 (by rw [hlen]; norm_num) hq hcl
    rw [hlen] at heq
    simp only [makeHoles, show toMakeOf "easy" = 49 from rfl]
    exact heq
  · have heq := makeHolesAux_eq (cells.zip draws) 54 (by rw [hlen]; norm_num) hq hcl
    rw [hlen] at heq
    simp only [makeHoles, show toMakeOf "medium" = 54 from rfl]
    exact heq
  · have heq := makeHolesAux_eq (cells.zip draws) 60 (by rw [hlen]; norm_num) hq hcl
    rw [hlen] at heq
    simp only [makeHoles, show toMakeOf "hard" = 60 from rfl]
    exact heq

/-- Counterexample for C3 as stated: with the all-zero draw sequence
(each draw is in [0,1)) on a fully solved board, the easy pass blanks 50
cells, not 49 — `random.random() <= chance` fires on a draw of 0.0 even
when `holesLeft` is 0. -/
theorem makeHoles_exact_counterexample :
    (∀ q ∈ List.replicate 81 (0 : ℚ), 0 ≤ q ∧ q < 1) ∧
    (∀ c ∈ solvedCells, c.answer ≠ 0) ∧
    solvedCells.length = 81 ∧
    blanks (makeHoles "easy" solvedCells (List.replicate 81 (0 : ℚ))) = 50 := by
  refine ⟨?_, by decide, by decide, ?_⟩
  · intro q hq
    rw [List.eq_of_mem_replicate hq]
    norm_num
  · have hlen : (solvedCells.zip (List.replicate 81 (0 : ℚ))).length = 81 := by
      decide
    have hz := makeHolesAux_zero_draws (solvedCells.zip (List.replicate 81 (0 : ℚ))) 49
      (by rintro ⟨a, b⟩ hp; exact List.eq_of_mem_replicate (List.of_mem_zip hp).2)
      (by
        rintro ⟨a, b⟩ hp
        exact (by decide : ∀ c ∈ solvedCells, c.answer ≠ 0) a (List.of_mem_zip hp).1)
    rw [hlen] at hz
    simp only [makeHoles, show toMakeOf "easy" = 49 from rfl]
    rw [hz]
    norm_num

/-- Witness for C3 (amended) at a concrete board and draw sequence. -/
theorem makeHoles_exact_target_witness :
    blanks (makeHoles "easy" solvedCells (List.replicate 81 (1 / 2 : ℚ))) = 49 :=
  (makeHoles_exact_target solvedCells (List.replicate 81 (1 / 2 : ℚ))
    (by decide) (by simp)
    (by decide)
    (by
      intro q hq
      rw [List.eq_of_mem_replicate hq]
      norm_num)).1

/-- C4: the loader maps a parsed zero character to a `Solved` cell
carrying digit 0 with domain `[0]` — not to an unsolved hole with the
full domain — contradicting the claim; evaluation of the embedded
`__create_from_file` at a 9-line input starting with a zero. -/
theorem load_zero_gives_solved_zero :
    (createFromFile c4Lines).toOption.map (fun b => b 0 0) =
      some (some ((Cell.new 0 0 1).setAnswer 0)) ∧
    ((Cell.new 0 0 1).setAnswer 0).solved = true ∧
    ((Cell.new 0 0 1).setAnswer 0).answer = 0 ∧
    ((Cell.new 0 0 1).setAnswer 0).possibleAnswers ≠ List.range' 1 9 :=
  ⟨by decide, rfl, rfl, by decide⟩

/-- C5: the loader accepts an 8-line input instead of raising — the
`len(board) != 9` check compares the fixed first dimension of the numpy array
— and returns a board whose ninth row is unfilled. -/
theorem load_accepts_eight_lines :
    (createFromFile c5Lines).toOption.isSome = true ∧
    (createFromFile c5Lines).toOption.map (fun b => b 8 0) = some none :=
  ⟨by decide, by decide⟩

/-- C6: `checkWin` is not pure — on a fully valid board it returns `true`
and flips the `game_over` session flag from `False` to `True` (the board
cells themselves are untouched). -/
theorem checkWin_sets_game_over :
    (checkWinRun { board := solvedGrid, game_over := false }).1 = true ∧
    (checkWinRun { board := solvedGrid, game_over := false }).2.game_over = true ∧
    (BoardState.mk solvedGrid false).game_over = false ∧
    (checkWinRun { board := solvedGrid, game_over := false }).2.board = solvedGrid := by
  have h : checkWin solvedGrid = true := by decide
  refine ⟨?_, ?_, rfl, ?_⟩ <;> simp [checkWinRun, h]

/-- C7 (amended): `lenOfPossible` returns the length of the candidate
list — the number of remaining candidates when the cell is unsolved, and
1 (not 0) when the cell is solved, since a solved cell keeps the
singleton of its digit as its candidate list. -/
theorem lenOfPossible_spec (c : Cell)
    (hinv : c.solved = true → ∃ a, c.possibleAnswers = [a]) :
    c.lenOfPossible = c.possibleAnswers.length ∧
    (c.solved = true → c.lenOfPossible = 1) := by
  refine ⟨rfl, fun hs => ?_⟩
  obtain ⟨a, ha⟩ := hinv hs
  simp [Cell.lenOfPossible, ha]

/-- Counterexample for C7 as stated: a freshly solved cell has
`lenOfPossible` equal to 1, not 0. -/
theorem lenOfPossible_counterexample :
    ((Cell.new 0 0 1).setAnswer 5).solved = true ∧
    ((Cell.new 0 0 1).setAnswer 5).lenOfPossible = 1 ∧
    ((Cell.new 0 0 1).setAnswer 5).lenOfPossible ≠ 0 := by
  decide

/-- Witness for C7 (amended) at a concrete solved cell. -/
theorem lenOfPossible_spec_witness :
    ((Cell.new 0 0 1).setAnswer 5).lenOfPossible = 1 :=
  (lenOfPossible_spec ((Cell.new 0 0 1).setAnswer 5) (fun _ => ⟨5, rfl⟩)).2 rfl

/-- C8 (amended): the box index assigned at construction is
`3*(row/3) + (col/3) + 1`, one more than the claimed formula, and lies in
the range 1-9 rather than 0-8. -/
theorem box_index_spec :
    ∀ r c : Fin 9,
      (emptyBoard r c).box = 3 * (r.val / 3) + c.val / 3 + 1 ∧
      1 ≤ (emptyBoard r c).box ∧ (emptyBoard r c).box ≤ 9 := by
  decide

/-- Counterexample for C8 as stated: the cell at row 0, column 0 has box
index 1, not `3*(0/3) + (0/3) = 0`. -/
theorem box_index_counterexample :
    (emptyBoard 0 0).box = 1 ∧
    (emptyBoard 0 0).box ≠ 3 * ((0 : ℕ) / 3) + (0 : ℕ) / 3 := by
  decide

/-- C9: `Cell.remove` on a well-formed cell: if unsolved and the digit is
in the domain, the digit is erased and a remaining singleton promotes the
cell to solved with that digit; if solved with that very digit, the
answer is cleared to the sentinel 0 (domain and solved flag unchanged);
in every other case the cell is unchanged. -/
theorem cell_remove_spec (c : Cell) (d : ℕ)
    (hnd : c.possibleAnswers.Nodup)
    (hinv : c.solved = true →
      ∃ a, c.possibleAnswers = [a] ∧ (c.answer = a ∨ c.answer = 0)) :
    (c.solved = false → d ∈ c.possibleAnswers →
      (c.remove d).possibleAnswers = c.possibleAnswers.erase d ∧
      ((c.possibleAnswers.erase d).length = 1 →
        (c.remove d).solved = true ∧
        c.possibleAnswers.erase d = [(c.remove d).answer]) ∧
      ((c.possibleAnswers.erase d).length ≠ 1 →
        (c.remove d).solved = false ∧ (c.remove d).answer = c.answer)) ∧
    (c.solved = true → c.answer = d →
      (c.remove d).answer = 0 ∧
      (c.remove d).possibleAnswers = c.possibleAnswers ∧
      (c.remove d).solved = true) ∧
    (c.solved = false → d ∉ c.possibleAnswers → c.remove d = c) ∧
    (c.solved = true → c.answer ≠ d → c.remove d = c) := by
  refine ⟨?_, ?_, ?_, ?_⟩
  · intro hs hmem
    have hnotmem : d ∉ c.possibleAnswers.erase d := hnd.not_mem_erase
    by_cases hlen : (c.possibleAnswers.erase d).length = 1
    · have h1 : c.removeFirst d =
          { c with possibleAnswers := c.possibleAnswers.erase d,
                   answer := (c.possibleAnswers.erase d).headD 0,
                   solved := true } := by
        rw [Cell.removeFirst, if_pos ⟨hmem, hs⟩, if_pos hlen]
      have hrm : c.remove d =
          { c with possibleAnswers := c.possibleAnswers.erase d,
                   answer := (c.possibleAnswers.erase d).headD 0,
                   solved := true } := by
        rw [Cell.remove, h1, Cell.removeSecond, if_neg (fun h => hnotmem h.1)]
      obtain ⟨a, ha⟩ := List.length_eq_one.mp hlen
      refine ⟨by rw [hrm], fun _ => ⟨by rw [hrm], ?_⟩, fun h => absurd hlen h⟩
      rw [hrm, ha]
      simp
    · have h1 : c.removeFirst d =
          { c with possibleAnswers := c.possibleAnswers.erase d } := by
        rw [Cell.removeFirst, if_pos ⟨hmem, hs⟩, if_neg hlen]
      have hrm : c.remove d =
          { c with possibleAnswers := c.possibleAnswers.erase d } := by
        rw [Cell.remove, h1, Cell.removeSecond,
          if_neg (fun h => by rw [hs] at h; exact absurd h.2 (by simp))]
      exact ⟨by rw [hrm], fun h1 => absurd h1 hlen,
        fun _ => ⟨by rw [hrm]; exact hs, by rw [hrm]⟩⟩
  · intro hs hans
    obtain ⟨a, ha, hcase⟩ := hinv hs
    have h1 : c.removeFirst d = c := by
      rw [Cell.removeFirst, if_neg (fun h => by rw [hs] at h; exact absurd h.2 (by simp))]
    by_cases hda : d = a
    · have hrm : c.remove d = { c with answer := 0 } := by
        rw [Cell.remove, h1, Cell.removeSecond,
          if_pos ⟨by rw [ha, hda]; exact List.mem_singleton_self a, hs⟩]
      exact ⟨by rw [hrm], by rw [hrm], by rw [hrm]; exact hs⟩
    · have hans0 : c.answer = 0 := by
        rcases hcase with h | h
        · exact absurd (by rw [← hans, h]) hda
        · exact h
      have hrm : c.remove d = c := by
        rw [Cell.remove, h1, Cell.removeSecond,
          if_neg (fun h => hda (by
            have hm := h.1
            rw [ha] at hm
            exact List.mem_singleton.mp hm))]
      rw [hrm]
      exact ⟨hans0, rfl, hs⟩
  · intro hs hnmem
    have h1 : c.removeFirst d = c := by
      rw [Cell.removeFirst, if_neg (fun h => hnmem h.1)]
    rw [Cell.remove, h1, Cell.removeSecond,
      if_neg (fun h => by rw [hs] at h; exact absurd h.2 (by simp))]
  · intro hs hansne
    obtain ⟨a, ha, hcase⟩ := hinv hs
    have h1 : c.removeFirst d = c := by
      rw [Cell.removeFirst, if_neg (fun h => by rw [hs] at h; exact absurd h.2 (by simp))]
    by_cases hda : d = a
    · have hans0 : c.answer = 0 := by
        rcases hcase with h | h
        · exact absurd (by rw [h, ← hda]) hansne
        · exact h
      have hrm : c.remove d = { c with answer := 0 } := by
        rw [Cell.remove, h1, Cell.removeSecond,
          if_pos ⟨by rw [ha, hda]; exact List.mem_singleton_self a, hs⟩]
      rw [hrm]
      cases c with
      | mk row col box solved pa ans =>
        simp only at hans0
        simp [hans0]
    · rw [Cell.remove, h1, Cell.removeSecond,
        if_neg (fun h => hda (by
          have hm := h.1
          rw [ha] at hm
          exact List.mem_singleton.mp hm))]

/-- Witness for C9 at a concrete unsolved cell and digit. -/
theorem cell_remove_spec_witness :
    ((Cell.new 0 0 1).remove 5).possibleAnswers =
      (Cell.new 0 0 1).possibleAnswers.erase 5 :=
  ((cell_remove_spec (Cell.new 0 0 1) 5 (by decide) (fun h => nomatch h)).1
    rfl (by decide)).1

/-- C10: for every draw sequence from [0,1) and every difficulty, the
hole-carving pass blanks at least the target number of cells — when
`holesLeft` equals `squaresLeft` the probability is 1 and a draw below 1
always carves, so the count never falls short. -/
theorem makeHoles_at_least_target (cells : List Cell) (draws : List ℚ)
    (hc : cells.length = 81) (hd : draws.length = 81)
    (hdraws : ∀ q ∈ draws, 0 ≤ q ∧ q < 1) :
    49 ≤ blanks (makeHoles "easy" cells draws) ∧
    54 ≤ blanks (makeHoles "medium" cells draws) ∧
    60 ≤ blanks (makeHoles "hard" cells draws) := by
  have hlen : (cells.zip draws).length = 81 := by
    rw [List.length_zip, hc, hd]
    norm_num
  have hq : ∀ p ∈ cells.zip draws, p.2 < 1 := by
    rintro ⟨a, b⟩ hp
    exact (hdraws b (List.of_mem_zip hp).2).2
  refine ⟨?_, ?_, ?_⟩
  · have hge := makeHolesAux_ge_nat (cells.zip draws) 49 (by rw [hlen]; norm_num) hq
    rw [hlen] at hge
    simp only [makeHoles, show toMakeOf "easy" = 49 from rfl]
    exact hge
  · have hge := makeHolesAux_ge_nat (cells.zip draws) 54 (by rw [hlen]; norm_num) hq
    rw [hlen] at hge
    simp only [makeHoles, show toMakeOf "medium" = 54 from rfl]
    exact hge
  · have hge := makeHolesAux_ge_nat (cells.zip draws) 60 (by rw [hlen]; norm_num) hq
    rw [hlen] at hge
    simp only [makeHoles, show toMakeOf "hard" = 60 from rfl]
    exact hge

/-- Witness for C10 at a concrete board and the all-zero draw sequence. -/
theorem makeHoles_at_least_target_witness :
    49 ≤ blanks (makeHoles "easy" solvedCells (List.replicate 81 (0 : ℚ))) :=
  (makeHoles_at_least_target solvedCells (List.replicate 81 (0 : ℚ))
    (by decide) (by simp)
    (by
      intro q hq
      rw [List.eq_of_mem_replicate hq]
      norm_num)).1

end Pydoku
